import Mathlib

/-!
Shallow embedding of `tools/generate_test_data.py`, a deterministic generator
of a synthetic directory tree of folders and empty files.

Modelling conventions:
* Filesystem paths are relative to the root folder: a `Path` is the list of
  name components below the root (`[]` is the root itself).
* The tree created under the root is a flat list `FS` of `(path, kind)` pairs,
  in creation order; `EKind.dir` for `os.makedirs`, `EKind.file c` for a file
  written with content `c` (the script always writes `""`).
* `random.choice(seq)` is modelled by `choice seq r` where `r` is one value of
  an abstract draw stream `draws : Nat → Nat` (the seeded Mersenne Twister is
  a fixed function of the seed; one stream value is consumed per call, and the
  selected index is `r % seq.length`; an empty sequence raises `IndexError`,
  modelled by `Err.emptyChoice`).
* A possible `OSError` of the i-th creation attempt (`os.makedirs` /
  `open(..., "w")`) is modelled by an oracle `fail : Nat → Option String`
  giving the error message, `none` meaning the attempt succeeds.
* The unbounded `while` loops are run on fuel: `Except.ok none` means the fuel
  ran out with the loop still running, `Except.ok (some s)` means the loop
  finished in state `s`, `Except.error e` means a Python exception escaped.
* `FOLDER_RATIO = 0.4` and the expression `int(TOTAL_ITEMS * FOLDER_RATIO)`
  are modelled with exact rationals and `Int.floor`; for the constants of the
  script (and every scenario in the spec) the IEEE-double computation and the
  exact one agree, and `int` truncation equals `floor` on nonnegative values.
-/

namespace GenTestData

/-- Kind of a filesystem entry: a directory, or a file with its content. -/
inductive EKind where
  | dir : EKind
  | file (content : String) : EKind
deriving DecidableEq, Repr

/-- A path relative to the root folder (`[]` is the root itself). -/
abbrev Path := List String

/-- The tree created under the root: entries in creation order. -/
abbrev FS := List (Path × EKind)

/-- Existence probe, `os.path.exists`: the root exists, and so does every
entry created below it. -/
def pathExists (fs : FS) (p : Path) : Bool :=
  decide (p = []) || fs.any (fun e => decide (e.1 = p))

/-- The k-th candidate tried by `get_unique_name`: the base name itself for
`k = 0`, then `f"{base_name} ({counter})"` with `counter = k`. -/
def candidateName (base : String) (k : Nat) : String :=
  if k = 0 then base else base ++ " (" ++ Nat.repr k ++ ")"

/-- The `while True` search of `get_unique_name`, with explicit fuel; `k` is
the index of the next candidate to probe.  When the fuel runs out the current
candidate is returned (a modelling fallback that is proved unreachable for the
fuel used by `get_unique_name`). -/
def getUniqueNameGo (fs : FS) (dir : Path) (base : String) : Nat → Nat → String
  | 0, k => candidateName base k
  | fuel + 1, k =>
    if pathExists fs (dir ++ [candidateName base k]) then
      getUniqueNameGo fs dir base fuel (k + 1)
    else
      candidateName base k

/-- Embedding of `get_unique_name(directory, base_name)`.  The fuel
`fs.length + 1` is sufficient: among the `fs.length + 1` pairwise distinct
candidates at least one is absent from the tree. -/
def getUniqueName (fs : FS) (dir : Path) (base : String) : String :=
  getUniqueNameGo fs dir base (fs.length + 1) 0

/-! Injectivity of `Nat.repr`, needed to know the candidate names are pairwise
distinct (the pigeonhole argument behind termination and freshness of
`get_unique_name`). -/

/-- Decimal digit characters of `n`, most significant first, written with
`Nat.digits`. -/
def decChars (n : Nat) : List Char :=
  ((Nat.digits 10 n).map Nat.digitChar).reverse

theorem toDigitsCore_eq_decChars :
    ∀ fuel n ds, n < fuel →
      Nat.toDigitsCore 10 fuel n ds =
        (if n = 0 then ['0'] else decChars n) ++ ds := by
  intro fuel
  induction fuel with
  | zero => intro n ds h; omega
  | succ f ih =>
    intro n ds h
    rw [Nat.toDigitsCore]
    by_cases h0 : n / 10 = 0
    · rw [if_pos h0]
      by_cases hn : n = 0
      · subst hn; simp [Nat.digitChar]
      · rw [if_neg hn]
        have hlt : n < 10 := by omega
        have hdig : Nat.digits 10 n = [n] := by
          rw [Nat.digits_def' (by norm_num : 1 < 10) (Nat.pos_of_ne_zero hn)]
          rw [Nat.mod_eq_of_lt hlt, h0]
          simp
        simp [decChars, hdig, Nat.mod_eq_of_lt hlt]
    · rw [if_neg h0]
      have hn : n ≠ 0 := by
        intro hc; subst hc; simp at h0
      have hstep : n / 10 < f := by
        have h1 : n / 10 < n := Nat.div_lt_self (Nat.pos_of_ne_zero hn) (by norm_num)
        omega
      rw [ih (n / 10) _ hstep]
      rw [if_neg h0, if_neg hn]
      have hdig : Nat.digits 10 n = n % 10 :: Nat.digits 10 (n / 10) :=
        Nat.digits_def' (by norm_num : 1 < 10) (Nat.pos_of_ne_zero hn)
      simp [decChars, hdig]

theorem digitChar_inj_of_lt :
    ∀ a, a < 10 → ∀ b, b < 10 → Nat.digitChar a = Nat.digitChar b → a = b := by
  decide

theorem map_digitChar_inj :
    ∀ l₁ l₂ : List Nat, (∀ d ∈ l₁, d < 10) → (∀ d ∈ l₂, d < 10) →
      l₁.map Nat.digitChar = l₂.map Nat.digitChar → l₁ = l₂ := by
  intro l₁
  induction l₁ with
  | nil =>
    intro l₂ _ _ h
    cases l₂ with
    | nil => rfl
    | cons b t => simp at h
  | cons a t ih =>
    intro l₂ h₁ h₂ h
    cases l₂ with
    | nil => simp at h
    | cons b t' =>
      simp only [List.map_cons, List.cons.injEq] at h
      have ha : a < 10 := h₁ a (by simp)
      have hb : b < 10 := h₂ b (by simp)
      have hab : a = b := digitChar_inj_of_lt a ha b hb h.1
      have ht : t = t' :=
        ih t' (fun d hd => h₁ d (by simp [hd])) (fun d hd => h₂ d (by simp [hd])) h.2
      rw [hab, ht]

theorem decChars_inj {m n : Nat}
    (h : decChars m = decChars n) : m = n := by
  unfold decChars at h
  have h' : (Nat.digits 10 m).map Nat.digitChar = (Nat.digits 10 n).map Nat.digitChar :=
    List.reverse_injective h
  have hdm : ∀ d ∈ Nat.digits 10 m, d < 10 :=
    fun d hd => Nat.digits_lt_base (by norm_num) hd
  have hdn : ∀ d ∈ Nat.digits 10 n, d < 10 :=
    fun d hd => Nat.digits_lt_base (by norm_num) hd
  have hdig : Nat.digits 10 m = Nat.digits 10 n :=
    map_digitChar_inj _ _ hdm hdn h'
  calc m = Nat.ofDigits 10 (Nat.digits 10 m) := (Nat.ofDigits_digits 10 m).symm
    _ = Nat.ofDigits 10 (Nat.digits 10 n) := by rw [hdig]
    _ = n := Nat.ofDigits_digits 10 n

theorem reprChars_eq (n : Nat) :
    Nat.toDigits 10 n = (if n = 0 then ['0'] else decChars n) := by
  rw [Nat.toDigits, toDigitsCore_eq_decChars (n + 1) n [] (Nat.lt_succ_self n)]
  simp

theorem decChars_ne_zeroChar {n : Nat} (hn : n ≠ 0) : decChars n ≠ ['0'] := by
  intro h
  unfold decChars at h
  have hrev : (Nat.digits 10 n).map Nat.digitChar = ['0'] := by
    have := congrArg List.reverse h
    simpa using this
  cases hdig : Nat.digits 10 n with
  | nil => rw [hdig] at hrev; simp at hrev
  | cons d t =>
    rw [hdig] at hrev
    cases t with
    | nil =>
      simp only [List.map_cons, List.map_nil, List.cons.injEq, and_true] at hrev
      have hd : d < 10 := Nat.digits_lt_base (by norm_num) (by rw [hdig]; simp)
      have hd0 : d = 0 := by
        have : Nat.digitChar d = Nat.digitChar 0 := by
          simpa [Nat.digitChar] using hrev
        exact digitChar_inj_of_lt d hd 0 (by norm_num) this
      have hzero : n = 0 := by
        have hof := Nat.ofDigits_digits 10 n
        rw [hdig, hd0] at hof
        simpa using hof.symm
      exact hn hzero
    | cons d' t' => simp at hrev

theorem nat_repr_inj {m n : Nat} (h : Nat.repr m = Nat.repr n) : m = n := by
  have hdata : (Nat.toDigits 10 m) = (Nat.toDigits 10 n) := by
    have := congrArg String.data h
    simpa [Nat.repr, List.asString] using this
  rw [reprChars_eq, reprChars_eq] at hdata
  by_cases hm : m = 0 <;> by_cases hn : n = 0
  · rw [hm, hn]
  · rw [if_pos hm, if_neg hn] at hdata
    exact absurd hdata.symm (decChars_ne_zeroChar hn)
  · rw [if_neg hm, if_pos hn] at hdata
    exact absurd hdata (decChars_ne_zeroChar hm)
  · rw [if_neg hm, if_neg hn] at hdata
    exact decChars_inj hdata

theorem string_append_left_cancel {s a b : String} (h : s ++ a = s ++ b) : a = b := by
  apply String.ext
  have := congrArg String.data h
  simp only [String.data_append] at this
  exact List.append_cancel_left this

theorem string_append_right_cancel {s a b : String} (h : a ++ s = b ++ s) : a = b := by
  apply String.ext
  have := congrArg String.data h
  simp only [String.data_append] at this
  exact List.append_cancel_right this

theorem candidateName_inj (base : String) {i j : Nat}
    (h : candidateName base i = candidateName base j) : i = j := by
  unfold candidateName at h
  by_cases hi : i = 0 <;> by_cases hj : j = 0
  · omega
  · exfalso
    rw [if_pos hi, if_neg hj] at h
    have hlen := congrArg String.length h
    have hp : (" (" : String).length = 2 := rfl
    have hc : (")" : String).length = 1 := rfl
    simp only [String.length_append, hp, hc] at hlen
    omega
  · exfalso
    rw [if_neg hi, if_pos hj] at h
    have hlen := congrArg String.length h
    have hp : (" (" : String).length = 2 := rfl
    have hc : (")" : String).length = 1 := rfl
    simp only [String.length_append, hp, hc] at hlen
    omega
  · rw [if_neg hi, if_neg hj] at h
    have h1 : " (" ++ Nat.repr i ++ ")" = " (" ++ Nat.repr j ++ ")" := by
      apply string_append_left_cancel (s := base)
      calc base ++ (" (" ++ Nat.repr i ++ ")")
          = base ++ " (" ++ Nat.repr i ++ ")" := by
            simp [String.ext_iff, String.data_append]
        _ = base ++ " (" ++ Nat.repr j ++ ")" := h
        _ = base ++ (" (" ++ Nat.repr j ++ ")") := by
            simp [String.ext_iff, String.data_append]
    have h2 : " (" ++ Nat.repr i = " (" ++ Nat.repr j := by
      apply string_append_right_cancel (s := ")")
      calc (" (" ++ Nat.repr i) ++ ")" = " (" ++ Nat.repr i ++ ")" := by
            simp [String.ext_iff, String.data_append]
        _ = " (" ++ Nat.repr j ++ ")" := h1
        _ = (" (" ++ Nat.repr j) ++ ")" := by
            simp [String.ext_iff, String.data_append]
    exact nat_repr_inj (string_append_left_cancel h2)

/-! Freshness of `get_unique_name`: among the `fs.length + 1` pairwise
distinct candidate names, at least one is absent from the tree, so the fueled
search finds the first free candidate and never hits its fallback. -/

theorem pathExists_true_iff {fs : FS} {p : Path} :
    pathExists fs p = true ↔ p = [] ∨ p ∈ fs.map Prod.fst := by
  unfold pathExists
  rw [Bool.or_eq_true, decide_eq_true_eq, List.any_eq_true]
  constructor
  · rintro (h | ⟨e, he, hp⟩)
    · exact Or.inl h
    · exact Or.inr (List.mem_map.mpr ⟨e, he, of_decide_eq_true hp⟩)
  · rintro (h | hmem)
    · exact Or.inl h
    · obtain ⟨e, he, hp⟩ := List.mem_map.mp hmem
      exact Or.inr ⟨e, he, decide_eq_true hp⟩

theorem exists_fresh (fs : FS) (dir : Path) (base : String) :
    ∃ m, m ≤ fs.length ∧
      pathExists fs (dir ++ [candidateName base m]) = false := by
  by_contra hcon
  push_neg at hcon
  have hall : ∀ m, m ≤ fs.length →
      (dir ++ [candidateName base m]) ∈ fs.map Prod.fst := by
    intro m hm
    have h := hcon m hm
    have h' : pathExists fs (dir ++ [candidateName base m]) = true := by
      cases hx : pathExists fs (dir ++ [candidateName base m]) with
      | true => rfl
      | false => exact absurd hx h
    rcases pathExists_true_iff.mp h' with hnil | hmem
    · exact absurd hnil (by simp)
    · exact hmem
  set l : List Path :=
    (List.range (fs.length + 1)).map (fun m => dir ++ [candidateName base m]) with hl
  have hinj : Function.Injective (fun m => dir ++ [candidateName base m]) := by
    intro a b hab
    simp only [List.append_cancel_left_eq, List.cons.injEq, and_true] at hab
    exact candidateName_inj base hab
  have hnodup : l.Nodup := (List.nodup_range _).map hinj
  have hsub : l ⊆ fs.map Prod.fst := by
    intro x hx
    rw [hl, List.mem_map] at hx
    obtain ⟨m, hm, hxm⟩ := hx
    rw [List.mem_range] at hm
    rw [← hxm]
    exact hall m (by omega)
  have hle : l.length ≤ (fs.map Prod.fst).length :=
    (hnodup.subperm hsub).length_le
  rw [hl] at hle
  simp at hle

theorem getUniqueNameGo_spec (fs : FS) (dir : Path) (base : String) :
    ∀ fuel k, (∃ m, k ≤ m ∧ m < k + fuel + 1 ∧
        pathExists fs (dir ++ [candidateName base m]) = false) →
      ∃ j, k ≤ j ∧
        getUniqueNameGo fs dir base fuel k = candidateName base j ∧
        pathExists fs (dir ++ [candidateName base j]) = false ∧
        ∀ i, k ≤ i → i < j → pathExists fs (dir ++ [candidateName base i]) = true := by
  intro fuel
  induction fuel with
  | zero =>
    intro k hm
    obtain ⟨m, hkm, hmlt, hfree⟩ := hm
    have hmk : m = k := by omega
    subst hmk
    exact ⟨m, le_refl m, rfl, hfree, fun i h1 h2 => absurd (lt_of_le_of_lt h1 h2) (lt_irrefl m)⟩
  | succ f ih =>
    intro k hm
    rw [getUniqueNameGo]
    by_cases hk : pathExists fs (dir ++ [candidateName base k]) = true
    · rw [if_pos hk]
      obtain ⟨m, hkm, hmlt, hfree⟩ := hm
      have hmk : m ≠ k := by
        intro hc; rw [hc] at hfree; rw [hfree] at hk; exact Bool.false_ne_true hk
      obtain ⟨j, hkj, heq, hfree', hleast⟩ :=
        ih (k + 1) ⟨m, by omega, by omega, hfree⟩
      refine ⟨j, by omega, heq, hfree', ?_⟩
      intro i h1 h2
      by_cases hik : i = k
      · rw [hik]; exact hk
      · exact hleast i (by omega) h2
    · have hkf : pathExists fs (dir ++ [candidateName base k]) = false := by
        cases hx : pathExists fs (dir ++ [candidateName base k]) with
        | true => exact absurd hx hk
        | false => rfl
      rw [if_neg (by rw [hkf]; exact Bool.false_ne_true)]
      exact ⟨k, le_refl k, rfl, hkf,
        fun i h1 h2 => absurd (lt_of_le_of_lt h1 h2) (lt_irrefl k)⟩

theorem getUniqueName_spec (fs : FS) (dir : Path) (base : String) :
    ∃ j, getUniqueName fs dir base = candidateName base j ∧
      pathExists fs (dir ++ [candidateName base j]) = false ∧
      ∀ i, i < j → pathExists fs (dir ++ [candidateName base i]) = true := by
  obtain ⟨m, hm, hfree⟩ := exists_fresh fs dir base
  obtain ⟨j, _, heq, hfree', hleast⟩ :=
    getUniqueNameGo_spec fs dir base (fs.length + 1) 0 ⟨m, Nat.zero_le m, by omega, hfree⟩
  exact ⟨j, heq, hfree', fun i h2 => hleast i (Nat.zero_le i) h2⟩

/-- The name returned by `get_unique_name` does not exist in the target
directory (nor anywhere else as that exact path). -/
theorem getUniqueName_fresh (fs : FS) (dir : Path) (base : String) :
    pathExists fs (dir ++ [getUniqueName fs dir base]) = false := by
  obtain ⟨j, heq, hfree, _⟩ := getUniqueName_spec fs dir base
  rw [heq]
  exact hfree

/-! The generator program: configuration, mutable state, and the two
generation loops. -/

/-- Uncaught Python exceptions of the script. -/
inductive Err where
  /-- `IndexError` raised by `random.choice` on an empty sequence. -/
  | emptyChoice : Err
  /-- An `OSError`-class exception escaping uncaught (only possible during the
  root reset: per-item creation errors are caught). -/
  | osError (msg : String) : Err
deriving DecidableEq, Repr

/-- The configuration constants of the script (`TOTAL_ITEMS`, `MAX_DEPTH`,
`FOLDER_RATIO`, `NAMES_LIST`); the root path and seed are abstracted away
(paths are relative to the root, the seeded generator is the `draws`
stream). -/
structure Config where
  total_items : Nat
  max_depth : Nat
  folder_ratio : ℚ
  names_list : List String
deriving DecidableEq, Repr

/-- `num_folders = int(TOTAL_ITEMS * FOLDER_RATIO)`; `int` truncation equals
`Int.floor` on the nonnegative values used here, and `Int.toNat` embeds the
result back into `Nat` (for a ratio in `[0, 1]` the floor is nonnegative). -/
def num_folders (cfg : Config) : Nat :=
  (⌊(cfg.total_items : ℚ) * cfg.folder_ratio⌋).toNat

/-- `num_files = TOTAL_ITEMS - num_folders` (for a ratio in `[0, 1]` the
`Nat` subtraction agrees with the Python `int` subtraction; for a ratio
above 1 both make the file loop create nothing). -/
def num_files (cfg : Config) : Nat :=
  cfg.total_items - num_folders cfg

/-- The in-memory state of the script between loop iterations. -/
structure GenState where
  /-- Entries created under the root, in creation order. -/
  fs : FS
  /-- `folder_list`: the Folder Registry of `(folder_path, depth)` records,
  seeded with the root record. -/
  folder_list : List (Path × Nat)
  created_folders : Nat
  created_files : Nat
  /-- Position in the random draw stream (two draws per loop iteration). -/
  rng : Nat
  /-- Number of loop iterations executed so far (indexes the failure
  oracle). -/
  iter : Nat
  /-- Lines printed for caught per-item creation failures. -/
  errLog : List String
deriving DecidableEq, Repr

/-- `random.choice(seq)` with one stream value `r`: `IndexError` on an empty
sequence, otherwise the element at index `r % seq.length`. -/
def choice {α : Type} (l : List α) (r : Nat) : Except Err α :=
  match l with
  | [] => .error .emptyChoice
  | x :: xs => .ok ((x :: xs).getD (r % (xs.length + 1)) x)

/-- `valid_folders = [f for f in folder_list if f[1] < MAX_DEPTH - 1]`
(the comparison is on Python ints, hence over `Int`). -/
def valid_folders (cfg : Config) (s : GenState) : List (Path × Nat) :=
  s.folder_list.filter (fun f => decide ((f.2 : Int) < (cfg.max_depth : Int) - 1))

/-- One iteration of the folder-creation `while` loop.  The two random draws
and the unique-name resolution happen before the `try` block; the `try` block
(`os.makedirs` + registry append + counter increment) succeeds or fails
according to the `fail` oracle, and a failure is caught and logged. -/
def folderStep (cfg : Config) (draws : Nat → Nat) (fail : Nat → Option String)
    (s : GenState) : Except Err GenState :=
  match choice (valid_folders cfg s) (draws s.rng) with
  | .error e => .error e
  | .ok pd =>
    match choice cfg.names_list (draws (s.rng + 1)) with
    | .error e => .error e
    | .ok base =>
      let folder_name := getUniqueName s.fs pd.1 base
      let new_folder := pd.1 ++ [folder_name]
      match fail s.iter with
      | some msg =>
        .ok { s with
              rng := s.rng + 2
              iter := s.iter + 1
              errLog := s.errLog ++ ["Failed to create folder: " ++ msg] }
      | none =>
        .ok { s with
              fs := s.fs ++ [(new_folder, EKind.dir)]
              folder_list := s.folder_list ++ [(new_folder, pd.2 + 1)]
              created_folders := s.created_folders + 1
              rng := s.rng + 2
              iter := s.iter + 1 }

/-- One iteration of the file-creation `while` loop; any folder of the
registry (root included) may host the file, and `open(file_path, "w")`
writes an empty file. -/
def fileStep (cfg : Config) (draws : Nat → Nat) (fail : Nat → Option String)
    (s : GenState) : Except Err GenState :=
  match choice s.folder_list (draws s.rng) with
  | .error e => .error e
  | .ok pd =>
    match choice cfg.names_list (draws (s.rng + 1)) with
    | .error e => .error e
    | .ok base =>
      let file_name := getUniqueName s.fs pd.1 base
      let file_path := pd.1 ++ [file_name]
      match fail s.iter with
      | some msg =>
        .ok { s with
              rng := s.rng + 2
              iter := s.iter + 1
              errLog := s.errLog ++ ["Failed to create file: " ++ msg] }
      | none =>
        .ok { s with
              fs := s.fs ++ [(file_path, EKind.file "")]
              created_files := s.created_files + 1
              rng := s.rng + 2
              iter := s.iter + 1 }

/-- `while created_folders < num_folders`, on fuel: `.ok none` means the fuel
ran out with the loop still running. -/
def foldersLoop (cfg : Config) (draws : Nat → Nat) (fail : Nat → Option String) :
    Nat → GenState → Except Err (Option GenState)
  | 0, s => if s.created_folders < num_folders cfg then .ok none else .ok (some s)
  | fuel + 1, s =>
    if s.created_folders < num_folders cfg then
      match folderStep cfg draws fail s with
      | .error e => .error e
      | .ok s' => foldersLoop cfg draws fail fuel s'
    else .ok (some s)

/-- `while created_files < num_files`, on fuel. -/
def filesLoop (cfg : Config) (draws : Nat → Nat) (fail : Nat → Option String) :
    Nat → GenState → Except Err (Option GenState)
  | 0, s => if s.created_files < num_files cfg then .ok none else .ok (some s)
  | fuel + 1, s =>
    if s.created_files < num_files cfg then
      match fileStep cfg draws fail s with
      | .error e => .error e
      | .ok s' => filesLoop cfg draws fail fuel s'
    else .ok (some s)

/-- The state right after the root reset: empty tree, registry holding only
the root record, counters and stream position at zero. -/
def initState : GenState :=
  { fs := [], folder_list := [([], 0)], created_folders := 0,
    created_files := 0, rng := 0, iter := 0, errLog := [] }

/-- Reset of the root folder.  `pre` is the tree under the root before the
run (`none`: the root does not exist).  If the root exists it is deleted
recursively (`shutil.rmtree`), then recreated (`os.makedirs`); either way the
root ends up empty.  `rootFail` models an `OSError` during this phase, which
is NOT caught and aborts the run. -/
def resetRoot (pre : Option FS) (rootFail : Option String) : Except Err FS :=
  match rootFail with
  | some msg => .error (.osError msg)
  | none =>
    let afterDelete : Option FS := if pre.isSome then none else pre
    .ok (afterDelete.getD [])

/-- The whole script: reset the root, run the folder loop, then the file
loop. -/
def runProgram (pre : Option FS) (rootFail : Option String) (cfg : Config)
    (draws : Nat → Nat) (fail : Nat → Option String) (fuel : Nat) :
    Except Err (Option GenState) :=
  match resetRoot pre rootFail with
  | .error e => .error e
  | .ok fs0 =>
    match foldersLoop cfg draws fail fuel { initState with fs := fs0 } with
    | .error e => .error e
    | .ok none => .ok none
    | .ok (some s) => filesLoop cfg draws fail fuel s

/-- State of the folder-generation loop after `n` iterations (starting from
the post-reset state; once the loop's guard fails, further iterations leave
the state unchanged). -/
def foldersIter (cfg : Config) (draws : Nat → Nat) (fail : Nat → Option String) :
    Nat → Except Err GenState
  | 0 => .ok initState
  | n + 1 =>
    match foldersIter cfg draws fail n with
    | .error e => .error e
    | .ok s =>
      if s.created_folders < num_folders cfg then folderStep cfg draws fail s
      else .ok s

/-- Number of directories in the generated tree. -/
def dirCount (fs : FS) : Nat :=
  (fs.filter (fun e => decide (e.2 = EKind.dir))).length

/-- Number of regular files in the generated tree. -/
def fileCount (fs : FS) : Nat :=
  (fs.filter (fun e => decide (e.2 ≠ EKind.dir))).length

/-! Characterization of single loop iterations. -/

theorem choice_ok_mem {α : Type} {l : List α} {r : Nat} {a : α}
    (h : choice l r = .ok a) : a ∈ l := by
  cases l with
  | nil => exact absurd h (by simp [choice])
  | cons x xs =>
    simp only [choice, Except.ok.injEq] at h
    rw [← h]
    have hlt : r % (xs.length + 1) < (x :: xs).length := by
      simp [Nat.mod_lt]
    rw [List.getD_eq_getElem?_getD, List.getElem?_eq_getElem hlt]
    exact List.getElem_mem hlt

theorem choice_nil {α : Type} (r : Nat) :
    choice ([] : List α) r = .error .emptyChoice := rfl

theorem choice_ne_error {α : Type} {l : List α} (hne : l ≠ []) (r : Nat) :
    ∃ a ∈ l, choice l r = .ok a := by
  cases l with
  | nil => exact absurd rfl hne
  | cons x xs =>
    refine ⟨(x :: xs).getD (r % (xs.length + 1)) x, ?_, rfl⟩
    have hlt : r % (xs.length + 1) < (x :: xs).length := by
      simp [Nat.mod_lt]
    rw [List.getD_eq_getElem?_getD, List.getElem?_eq_getElem hlt]
    exact List.getElem_mem hlt

theorem folderStep_char {cfg : Config} {draws : Nat → Nat}
    {fail : Nat → Option String} {s s' : GenState}
    (h : folderStep cfg draws fail s = .ok s') :
    ∃ pd base,
      pd ∈ s.folder_list ∧ ((pd : Path × Nat).2 : Int) < (cfg.max_depth : Int) - 1 ∧
      base ∈ cfg.names_list ∧
      pathExists s.fs (pd.1 ++ [getUniqueName s.fs pd.1 base]) = false ∧
      ((∃ msg, fail s.iter = some msg ∧
         s' = { s with
                rng := s.rng + 2
                iter := s.iter + 1
                errLog := s.errLog ++ ["Failed to create folder: " ++ msg] }) ∨
       (fail s.iter = none ∧
         s' = { s with
                fs := s.fs ++ [(pd.1 ++ [getUniqueName s.fs pd.1 base], EKind.dir)]
                folder_list := s.folder_list ++
                  [(pd.1 ++ [getUniqueName s.fs pd.1 base], pd.2 + 1)]
                created_folders := s.created_folders + 1
                rng := s.rng + 2
                iter := s.iter + 1 })) := by
  cases hc1 : choice (valid_folders cfg s) (draws s.rng) with
  | error e => rw [folderStep, hc1] at h; exact absurd h (by simp)
  | ok pd =>
    cases hc2 : choice cfg.names_list (draws (s.rng + 1)) with
    | error e => rw [folderStep, hc1, hc2] at h; exact absurd h (by simp)
    | ok base =>
      have hmem := choice_ok_mem hc1
      rw [valid_folders, List.mem_filter] at hmem
      refine ⟨pd, base, hmem.1, of_decide_eq_true hmem.2, choice_ok_mem hc2,
        getUniqueName_fresh s.fs pd.1 base, ?_⟩
      rw [folderStep, hc1, hc2] at h
      cases hf : fail s.iter with
      | some msg =>
        rw [hf] at h
        simp only [Except.ok.injEq] at h
        exact Or.inl ⟨msg, rfl, h.symm⟩
      | none =>
        rw [hf] at h
        simp only [Except.ok.injEq] at h
        exact Or.inr ⟨rfl, h.symm⟩

theorem fileStep_char {cfg : Config} {draws : Nat → Nat}
    {fail : Nat → Option String} {s s' : GenState}
    (h : fileStep cfg draws fail s = .ok s') :
    ∃ pd base,
      pd ∈ s.folder_list ∧ base ∈ cfg.names_list ∧
      pathExists s.fs ((pd : Path × Nat).1 ++ [getUniqueName s.fs pd.1 base]) = false ∧
      ((∃ msg, fail s.iter = some msg ∧
         s' = { s with
                rng := s.rng + 2
                iter := s.iter + 1
                errLog := s.errLog ++ ["Failed to create file: " ++ msg] }) ∨
       (fail s.iter = none ∧
         s' = { s with
                fs := s.fs ++ [(pd.1 ++ [getUniqueName s.fs pd.1 base], EKind.file "")]
                created_files := s.created_files + 1
                rng := s.rng + 2
                iter := s.iter + 1 })) := by
  cases hc1 : choice s.folder_list (draws s.rng) with
  | error e => rw [fileStep, hc1] at h; exact absurd h (by simp)
  | ok pd =>
    cases hc2 : choice cfg.names_list (draws (s.rng + 1)) with
    | error e => rw [fileStep, hc1, hc2] at h; exact absurd h (by simp)
    | ok base =>
      refine ⟨pd, base, choice_ok_mem hc1, choice_ok_mem hc2,
        getUniqueName_fresh s.fs pd.1 base, ?_⟩
      rw [fileStep, hc1, hc2] at h
      cases hf : fail s.iter with
      | some msg =>
        rw [hf] at h
        simp only [Except.ok.injEq] at h
        exact Or.inl ⟨msg, rfl, h.symm⟩
      | none =>
        rw [hf] at h
        simp only [Except.ok.injEq] at h
        exact Or.inr ⟨rfl, h.symm⟩

/-! The inductive invariant maintained by both generation loops. -/

/-- Invariant tying the Folder Registry, the created tree and the counters
together. -/
structure Inv (cfg : Config) (s : GenState) : Prop where
  /-- A registered folder's depth is the length of its relative path. -/
  len_depth : ∀ pd ∈ s.folder_list, (pd : Path × Nat).1.length = pd.2
  /-- The registry lists exactly the root and the created directories. -/
  sync : s.folder_list.map Prod.fst =
    [] :: (s.fs.filter (fun e => decide (e.2 = EKind.dir))).map Prod.fst
  /-- Directory entries in the tree are counted by `created_folders`. -/
  dir_count : dirCount s.fs = s.created_folders
  /-- File entries in the tree are counted by `created_files`. -/
  file_count : fileCount s.fs = s.created_files
  /-- No path is created twice. -/
  nodup : (s.fs.map Prod.fst).Nodup
  /-- Every created entry sits directly inside a registered folder. -/
  parent_reg : ∀ e ∈ s.fs, (e : Path × EKind).1 ≠ [] ∧
    e.1.dropLast ∈ s.folder_list.map Prod.fst
  /-- Registered depths stay below `MAX_DEPTH` (whenever `MAX_DEPTH ≥ 1`, so
  that the root record itself satisfies the bound). -/
  depths : 1 ≤ cfg.max_depth → ∀ pd ∈ s.folder_list, (pd : Path × Nat).2 < cfg.max_depth

theorem inv_init (cfg : Config) : Inv cfg initState := by
  constructor
  · intro pd hpd
    simp only [initState, List.mem_singleton] at hpd
    rw [hpd]
    rfl
  · rfl
  · rfl
  · rfl
  · simp [initState]
  · intro e he; exact absurd he (by simp [initState])
  · intro h1 pd hpd
    simp only [initState, List.mem_singleton] at hpd
    rw [hpd]
    exact h1

theorem fresh_not_mem {fs : FS} {p : Path}
    (h : pathExists fs p = false) : p ∉ fs.map Prod.fst := by
  intro hmem
  have : pathExists fs p = true := pathExists_true_iff.mpr (Or.inr hmem)
  rw [h] at this
  exact Bool.false_ne_true this

theorem folderStep_inv {cfg : Config} {draws : Nat → Nat}
    {fail : Nat → Option String} {s s' : GenState}
    (hinv : Inv cfg s) (h : folderStep cfg draws fail s = .ok s') :
    Inv cfg s' := by
  obtain ⟨pd, base, hreg, hdepth, _, hfresh, hcase⟩ := folderStep_char h
  rcases hcase with ⟨msg, _, hs'⟩ | ⟨_, hs'⟩
  · rw [hs']
    exact ⟨hinv.len_depth, hinv.sync, hinv.dir_count, hinv.file_count,
      hinv.nodup, hinv.parent_reg, hinv.depths⟩
  · rw [hs']
    set nf := pd.1 ++ [getUniqueName s.fs pd.1 base] with hnf
    constructor
    · intro qd hqd
      rcases List.mem_append.mp hqd with hold | hnew
      · exact hinv.len_depth qd hold
      · rw [List.mem_singleton] at hnew
        rw [hnew]
        simp only [hnf, List.length_append, List.length_singleton]
        rw [hinv.len_depth pd hreg]
    · simp only [List.map_append, List.filter_append, hinv.sync]
      simp
    · have hold := hinv.dir_count
      rw [dirCount] at hold
      rw [dirCount, List.filter_append, List.length_append, hold]
      simp
    · have hold := hinv.file_count
      rw [fileCount] at hold
      rw [fileCount, List.filter_append, List.length_append, hold]
      simp
    · simp only [List.map_append, List.map_cons, List.map_nil]
      rw [List.nodup_append]
      refine ⟨hinv.nodup, List.nodup_singleton nf, ?_⟩
      intro a ha hb
      rw [List.mem_singleton] at hb
      rw [hb] at ha
      exact fresh_not_mem hfresh ha
    · intro e he
      rcases List.mem_append.mp he with hold | hnew
      · obtain ⟨hne, hdrop⟩ := hinv.parent_reg e hold
        exact ⟨hne, by simp only [List.map_append]; exact List.mem_append_left _ hdrop⟩
      · rw [List.mem_singleton] at hnew
        rw [hnew]
        refine ⟨by simp [hnf], ?_⟩
        simp only [hnf, List.dropLast_concat, List.map_append]
        exact List.mem_append_left _ (List.mem_map.mpr ⟨pd, hreg, rfl⟩)
    · intro h1 qd hqd
      rcases List.mem_append.mp hqd with hold | hnew
      · exact hinv.depths h1 qd hold
      · rw [List.mem_singleton] at hnew
        rw [hnew]
        have : ((pd.2 : Int)) < (cfg.max_depth : Int) - 1 := hdepth
        omega

theorem fileStep_inv {cfg : Config} {draws : Nat → Nat}
    {fail : Nat → Option String} {s s' : GenState}
    (hinv : Inv cfg s) (h : fileStep cfg draws fail s = .ok s') :
    Inv cfg s' := by
  obtain ⟨pd, base, hreg, _, hfresh, hcase⟩ := fileStep_char h
  rcases hcase with ⟨msg, _, hs'⟩ | ⟨_, hs'⟩
  · rw [hs']
    exact ⟨hinv.len_depth, hinv.sync, hinv.dir_count, hinv.file_count,
      hinv.nodup, hinv.parent_reg, hinv.depths⟩
  · rw [hs']
    set nf := pd.1 ++ [getUniqueName s.fs pd.1 base] with hnf
    constructor
    · exact hinv.len_depth
    · simp only [List.filter_append, hinv.sync]
      simp
    · have hold := hinv.dir_count
      rw [dirCount] at hold
      rw [dirCount, List.filter_append, List.length_append, hold]
      simp
    · have hold := hinv.file_count
      rw [fileCount] at hold
      rw [fileCount, List.filter_append, List.length_append, hold]
      simp
    · simp only [List.map_append, List.map_cons, List.map_nil]
      rw [List.nodup_append]
      refine ⟨hinv.nodup, List.nodup_singleton nf, ?_⟩
      intro a ha hb
      rw [List.mem_singleton] at hb
      rw [hb] at ha
      exact fresh_not_mem hfresh ha
    · intro e he
      rcases List.mem_append.mp he with hold | hnew
      · exact hinv.parent_reg e hold
      · rw [List.mem_singleton] at hnew
        rw [hnew]
        refine ⟨by simp [hnf], ?_⟩
        simp only [hnf, List.dropLast_concat]
        exact List.mem_map.mpr ⟨pd, hreg, rfl⟩
    · exact hinv.depths

/-! Loop-level lemmas: when a loop finishes, its counter has reached its
target exactly, and the invariant has been carried through. -/

theorem folderStep_counters {cfg : Config} {draws : Nat → Nat}
    {fail : Nat → Option String} {s s' : GenState}
    (h : folderStep cfg draws fail s = .ok s') :
    s'.created_files = s.created_files ∧
    (s'.created_folders = s.created_folders ∨
     s'.created_folders = s.created_folders + 1) := by
  obtain ⟨pd, base, _, _, _, _, hcase⟩ := folderStep_char h
  rcases hcase with ⟨msg, _, hs'⟩ | ⟨_, hs'⟩ <;> rw [hs']
  · exact ⟨rfl, Or.inl rfl⟩
  · exact ⟨rfl, Or.inr rfl⟩

theorem fileStep_counters {cfg : Config} {draws : Nat → Nat}
    {fail : Nat → Option String} {s s' : GenState}
    (h : fileStep cfg draws fail s = .ok s') :
    s'.created_folders = s.created_folders ∧
    (s'.created_files = s.created_files ∨
     s'.created_files = s.created_files + 1) := by
  obtain ⟨pd, base, _, _, _, hcase⟩ := fileStep_char h
  rcases hcase with ⟨msg, _, hs'⟩ | ⟨_, hs'⟩ <;> rw [hs']
  · exact ⟨rfl, Or.inl rfl⟩
  · exact ⟨rfl, Or.inr rfl⟩

theorem foldersLoop_ok {cfg : Config} {draws : Nat → Nat}
    {fail : Nat → Option String} :
    ∀ fuel {s s' : GenState},
      foldersLoop cfg draws fail fuel s = .ok (some s') →
      Inv cfg s → s.created_folders ≤ num_folders cfg →
      Inv cfg s' ∧ s'.created_folders = num_folders cfg ∧
        s'.created_files = s.created_files := by
  intro fuel
  induction fuel with
  | zero =>
    intro s s' h hinv hle
    rw [foldersLoop] at h
    by_cases hc : s.created_folders < num_folders cfg
    · rw [if_pos hc] at h; exact absurd h (by simp)
    · rw [if_neg hc] at h
      simp only [Except.ok.injEq, Option.some.injEq] at h
      rw [← h]
      exact ⟨hinv, by omega, rfl⟩
  | succ f ih =>
    intro s s' h hinv hle
    rw [foldersLoop] at h
    by_cases hc : s.created_folders < num_folders cfg
    · rw [if_pos hc] at h
      cases hstep : folderStep cfg draws fail s with
      | error e => rw [hstep] at h; exact absurd h (by simp)
      | ok s1 =>
        rw [hstep] at h
        have hinv1 := folderStep_inv hinv hstep
        have hcnt := folderStep_counters hstep
        have hle1 : s1.created_folders ≤ num_folders cfg := by
          rcases hcnt.2 with h1 | h1 <;> omega
        obtain ⟨hi, he, hf⟩ := ih h hinv1 hle1
        exact ⟨hi, he, by rw [hf, hcnt.1]⟩
    · rw [if_neg hc] at h
      simp only [Except.ok.injEq, Option.some.injEq] at h
      rw [← h]
      exact ⟨hinv, by omega, rfl⟩

theorem filesLoop_ok {cfg : Config} {draws : Nat → Nat}
    {fail : Nat → Option String} :
    ∀ fuel {s s' : GenState},
      filesLoop cfg draws fail fuel s = .ok (some s') →
      Inv cfg s → s.created_files ≤ num_files cfg →
      Inv cfg s' ∧ s'.created_files = num_files cfg ∧
        s'.created_folders = s.created_folders := by
  intro fuel
  induction fuel with
  | zero =>
    intro s s' h hinv hle
    rw [filesLoop] at h
    by_cases hc : s.created_files < num_files cfg
    · rw [if_pos hc] at h; exact absurd h (by simp)
    · rw [if_neg hc] at h
      simp only [Except.ok.injEq, Option.some.injEq] at h
      rw [← h]
      exact ⟨hinv, by omega, rfl⟩
  | succ f ih =>
    intro s s' h hinv hle
    rw [filesLoop] at h
    by_cases hc : s.created_files < num_files cfg
    · rw [if_pos hc] at h
      cases hstep : fileStep cfg draws fail s with
      | error e => rw [hstep] at h; exact absurd h (by simp)
      | ok s1 =>
        rw [hstep] at h
        have hinv1 := fileStep_inv hinv hstep
        have hcnt := fileStep_counters hstep
        have hle1 : s1.created_files ≤ num_files cfg := by
          rcases hcnt.2 with h1 | h1 <;> omega
        obtain ⟨hi, he, hf⟩ := ih h hinv1 hle1
        exact ⟨hi, he, by rw [hf, hcnt.1]⟩
    · rw [if_neg hc] at h
      simp only [Except.ok.injEq, Option.some.injEq] at h
      rw [← h]
      exact ⟨hinv, by omega, rfl⟩

theorem resetRoot_none (pre : Option FS) : resetRoot pre none = .ok [] := by
  cases pre <;> rfl

/-- With no root-reset failure, the run is the folder loop followed by the
file loop, started from the post-reset state — independently of what was on
disk before. -/
theorem runProgram_none_eq (pre : Option FS) (cfg : Config) (draws : Nat → Nat)
    (fail : Nat → Option String) (fuel : Nat) :
    runProgram pre none cfg draws fail fuel =
      match foldersLoop cfg draws fail fuel initState with
      | .error e => .error e
      | .ok none => .ok none
      | .ok (some s) => filesLoop cfg draws fail fuel s := by
  rw [runProgram, resetRoot_none pre]
  rfl

theorem runProgram_ok {pre : Option FS} {rootFail : Option String}
    {cfg : Config} {draws : Nat → Nat} {fail : Nat → Option String}
    {fuel : Nat} {s : GenState}
    (h : runProgram pre rootFail cfg draws fail fuel = .ok (some s)) :
    rootFail = none ∧ Inv cfg s ∧ s.created_folders = num_folders cfg ∧
      s.created_files = num_files cfg := by
  cases rootFail with
  | some msg => rw [runProgram, resetRoot] at h; exact absurd h (by simp)
  | none =>
    rw [runProgram_none_eq pre] at h
    cases hfold : foldersLoop cfg draws fail fuel initState with
    | error e => rw [hfold] at h; exact absurd h (by simp)
    | ok o =>
      cases o with
      | none => rw [hfold] at h; exact absurd h (by simp)
      | some mid =>
        rw [hfold] at h
        obtain ⟨hinv1, hnf, hcf⟩ :=
          foldersLoop_ok fuel hfold (inv_init cfg) (Nat.zero_le _)
        have hcf0 : mid.created_files = 0 := hcf
        obtain ⟨hinv2, hnfiles, hpres⟩ :=
          filesLoop_ok fuel h hinv1 (by rw [hcf0]; exact Nat.zero_le _)
        exact ⟨rfl, hinv2, by rw [hpres, hnf], hnfiles⟩

/-! Further helper lemmas used by the claim theorems. -/

theorem foldersIter_inv (cfg : Config) (draws : Nat → Nat)
    (fail : Nat → Option String) :
    ∀ n s, foldersIter cfg draws fail n = .ok s → Inv cfg s := by
  intro n
  induction n with
  | zero =>
    intro s h
    rw [foldersIter] at h
    simp only [Except.ok.injEq] at h
    rw [← h]
    exact inv_init cfg
  | succ m ih =>
    intro s h
    rw [foldersIter] at h
    cases hm : foldersIter cfg draws fail m with
    | error e => rw [hm] at h; exact absurd h (by simp)
    | ok s0 =>
      rw [hm] at h
      dsimp only at h
      by_cases hc : s0.created_folders < num_folders cfg
      · rw [if_pos hc] at h
        exact folderStep_inv (ih s0 hm) h
      · rw [if_neg hc] at h
        simp only [Except.ok.injEq] at h
        rw [← h]
        exact ih s0 hm

theorem choice_error {α : Type} {l : List α} {r : Nat} {e : Err}
    (h : choice l r = .error e) : e = .emptyChoice := by
  cases l with
  | nil =>
    simp only [choice, Except.error.injEq] at h
    exact h.symm
  | cons x xs => exact absurd h (by simp [choice])

theorem folderStep_empty_pool {cfg : Config} {draws : Nat → Nat}
    {fail : Nat → Option String} (s : GenState) (hpool : cfg.names_list = []) :
    folderStep cfg draws fail s = .error .emptyChoice := by
  rw [folderStep]
  cases hc1 : choice (valid_folders cfg s) (draws s.rng) with
  | error e => rw [choice_error hc1]
  | ok pd => rw [hpool]; rfl

theorem fileStep_empty_pool {cfg : Config} {draws : Nat → Nat}
    {fail : Nat → Option String} (s : GenState) (hpool : cfg.names_list = []) :
    fileStep cfg draws fail s = .error .emptyChoice := by
  rw [fileStep]
  cases hc1 : choice s.folder_list (draws s.rng) with
  | error e => rw [choice_error hc1]
  | ok pd => rw [hpool]; rfl

/-! Concrete instances used by the witness theorems: a tiny configuration
(`cfgW`), the scenario configuration of the spec (`cfg9`), a stalling
configuration (`cfgStall`), a constant draw stream and a never-failing
creation oracle, together with the final states those runs reach. -/

/-- Tiny test configuration: 3 items, depth bound 3, ratio 1/2, one name. -/
def cfgW : Config := ⟨3, 3, 1/2, ["a"]⟩

/-- Spec scenario configuration: seed-independent structural form of
seed=42, total_items=10, folder_ratio=0.4, max_depth=2, a two-name pool. -/
def cfg9 (a b : String) : Config := ⟨10, 2, 2/5, [a, b]⟩

/-- Configuration with `MAX_DEPTH = 1 < 2` and a positive folder target. -/
def cfgStall : Config := ⟨1, 1, 1, ["a"]⟩

/-- A draw stream (the abstraction of one concrete seeded generator). -/
def d0 : Nat → Nat := fun _ => 0

/-- Creation-failure oracle under which every attempt succeeds. -/
def f0 : Nat → Option String := fun _ => none

/-- Final state of the run at `cfgW` with stream `d0`. -/
def sW : GenState :=
  { fs := [(["a"], EKind.dir), (["a (1)"], EKind.file ""), (["a (2)"], EKind.file "")]
    folder_list := [([], 0), (["a"], 1)]
    created_folders := 1
    created_files := 2
    rng := 6
    iter := 3
    errLog := [] }

/-- State after one iteration of the folder loop at `cfgW` with stream
`d0`. -/
def sIter1 : GenState :=
  { fs := [(["a"], EKind.dir)]
    folder_list := [([], 0), (["a"], 1)]
    created_folders := 1
    created_files := 0
    rng := 2
    iter := 1
    errLog := [] }

/-- Tree of the final state of the run at `cfg9 "a" "b"` with stream `d0`
(a constant stream always picks the first pool name). -/
def s9fs : FS :=
  [(["a"], EKind.dir), (["a (1)"], EKind.dir), (["a (2)"], EKind.dir),
   (["a (3)"], EKind.dir), (["a (4)"], EKind.file ""), (["a (5)"], EKind.file ""),
   (["a (6)"], EKind.file ""), (["a (7)"], EKind.file ""), (["a (8)"], EKind.file ""),
   (["a (9)"], EKind.file "")]

/-- Final state of the run at `cfg9 "a" "b"` with stream `d0`. -/
def s9 : GenState :=
  { fs := s9fs
    folder_list := [([], 0), (["a"], 1), (["a (1)"], 1), (["a (2)"], 1), (["a (3)"], 1)]
    created_folders := 4
    created_files := 6
    rng := 20
    iter := 10
    errLog := [] }

/-! The claim theorems. -/

/-- C1 — Determinism: a fixed seed fixes the draw stream (`random.seed`
makes the stream a function of the seed alone), and with fixed configuration
constants and name pool, two independent runs against an initially-absent
(`pre = none`) or freely overwritable (`pre = some t`, reset succeeding) root
produce identical results — in particular the same set of relative paths
under the root (`fs`) and the same tree shape (registry, depths): the run's
outcome does not depend on the prior content of the root at all. -/
theorem determinism_fixed_seed (pre₁ pre₂ : Option FS) (rootFail : Option String)
    (cfg : Config) (draws : Nat → Nat) (fail : Nat → Option String) (fuel : Nat) :
    runProgram pre₁ rootFail cfg draws fail fuel =
      runProgram pre₂ rootFail cfg draws fail fuel := by
  cases rootFail with
  | some msg => rfl
  | none => rw [runProgram_none_eq pre₁, runProgram_none_eq pre₂]

/-- C2 — Count invariant: after a successful run, the number of directories
created under the root equals `⌊total_items * folder_ratio⌋`, the number of
regular files equals `total_items` minus that value, and the two add up to
`total_items` (the last conjunct needs `folder_ratio ≤ 1`, which holds for
the script's `0.4`). -/
theorem count_invariant {pre : Option FS} {rootFail : Option String}
    {cfg : Config} {draws : Nat → Nat} {fail : Nat → Option String}
    {fuel : Nat} {s : GenState}
    (h1 : cfg.folder_ratio ≤ 1)
    (hrun : runProgram pre rootFail cfg draws fail fuel = .ok (some s)) :
    dirCount s.fs = (⌊(cfg.total_items : ℚ) * cfg.folder_ratio⌋).toNat ∧
    fileCount s.fs = cfg.total_items - (⌊(cfg.total_items : ℚ) * cfg.folder_ratio⌋).toNat ∧
    dirCount s.fs + fileCount s.fs = cfg.total_items := by
  obtain ⟨-, hinv, hf, hfi⟩ := runProgram_ok hrun
  have hd : dirCount s.fs = num_folders cfg := by rw [hinv.dir_count, hf]
  have hfc : fileCount s.fs = num_files cfg := by rw [hinv.file_count, hfi]
  have hmul : (cfg.total_items : ℚ) * cfg.folder_ratio ≤ (cfg.total_items : ℚ) :=
    mul_le_of_le_one_right (Nat.cast_nonneg _) h1
  have hfl : ⌊(cfg.total_items : ℚ) * cfg.folder_ratio⌋ ≤ (cfg.total_items : Int) := by
    calc ⌊(cfg.total_items : ℚ) * cfg.folder_ratio⌋
        ≤ ⌊(cfg.total_items : ℚ)⌋ := Int.floor_le_floor hmul
      _ = (cfg.total_items : Int) := Int.floor_natCast _
  have hle : num_folders cfg ≤ cfg.total_items := by
    rw [num_folders]
    omega
  refine ⟨hd, by rw [hfc, num_files, num_folders], ?_⟩
  rw [hd, hfc, num_files, num_folders]
  omega

/-- C2 witness at a concrete completed run. -/
theorem count_invariant_witness :
    dirCount sW.fs = (⌊(cfgW.total_items : ℚ) * cfgW.folder_ratio⌋).toNat ∧
    fileCount sW.fs =
      cfgW.total_items - (⌊(cfgW.total_items : ℚ) * cfgW.folder_ratio⌋).toNat ∧
    dirCount sW.fs + fileCount sW.fs = cfgW.total_items :=
  @count_invariant none none cfgW d0 f0 10 sW (by norm_num [cfgW])
    (by with_unfolding_all rfl)

/-- C3 — Depth invariant: after every iteration of the folder-generation
loop (for `MAX_DEPTH ≥ 1`, as with the script's value 4), every folder
recorded in the Folder Registry has depth strictly below `MAX_DEPTH`, and
every folder of the eligible-parent filter `valid_folders` — the only pool
parents of new subfolders are drawn from — has depth strictly below
`MAX_DEPTH - 1`. -/
theorem depth_invariant (cfg : Config) (draws : Nat → Nat)
    (fail : Nat → Option String) (hmd : 1 ≤ cfg.max_depth) (n : Nat)
    (s : GenState) (h : foldersIter cfg draws fail n = .ok s) :
    (∀ pd ∈ s.folder_list, (pd : Path × Nat).2 < cfg.max_depth) ∧
    (∀ pd ∈ valid_folders cfg s,
      ((pd : Path × Nat).2 : Int) < (cfg.max_depth : Int) - 1) := by
  have hinv := foldersIter_inv cfg draws fail n s h
  refine ⟨hinv.depths hmd, ?_⟩
  intro pd hpd
  rw [valid_folders, List.mem_filter] at hpd
  exact of_decide_eq_true hpd.2

/-- C3 witness: the registry depths after one concrete loop iteration. -/
theorem depth_invariant_witness :
    sIter1.folder_list.all (fun pd => decide (pd.2 < cfgW.max_depth)) = true := by
  have h :=
    (depth_invariant cfgW d0 f0 (by decide) 1 sIter1 (by with_unfolding_all rfl)).1
  rw [List.all_eq_true]
  intro pd hpd
  exact decide_eq_true (h pd hpd)

/-- C4 — Unique Name Resolution: `get_unique_name` returns the base name
itself when no entry with that name exists in the directory; otherwise it
returns the first name `f"{base} ({k})"` with `k` counting up from 1 whose
path does not exist.  Being a pure function of the entry snapshot and the
base name, the result is deterministic. -/
theorem unique_name_resolution (fs : FS) (dir : Path) (base : String) :
    (pathExists fs (dir ++ [base]) = false → getUniqueName fs dir base = base) ∧
    (pathExists fs (dir ++ [base]) = true →
      ∃ k, 1 ≤ k ∧
        getUniqueName fs dir base = base ++ " (" ++ Nat.repr k ++ ")" ∧
        pathExists fs (dir ++ [base ++ " (" ++ Nat.repr k ++ ")"]) = false ∧
        ∀ j, 1 ≤ j → j < k →
          pathExists fs (dir ++ [base ++ " (" ++ Nat.repr j ++ ")"]) = true) := by
  obtain ⟨j, heq, hfree, hleast⟩ := getUniqueName_spec fs dir base
  have hcand0 : candidateName base 0 = base := by rw [candidateName, if_pos rfl]
  constructor
  · intro h0
    by_cases hj : j = 0
    · rw [hj, hcand0] at heq
      exact heq
    · exfalso
      have := hleast 0 (Nat.pos_of_ne_zero hj)
      rw [hcand0] at this
      rw [h0] at this
      exact Bool.false_ne_true this
  · intro h1
    have hj : j ≠ 0 := by
      intro hc
      rw [hc, hcand0] at hfree
      rw [h1] at hfree
      exact absurd hfree (by simp)
    refine ⟨j, Nat.pos_of_ne_zero hj, ?_, ?_, ?_⟩
    · rw [heq, candidateName, if_neg hj]
    · have := hfree
      rw [candidateName, if_neg hj] at this
      exact this
    · intro i h1i hij
      have := hleast i hij
      rw [candidateName, if_neg (by omega : i ≠ 0)] at this
      exact this

/-- C4 witness: resolution in an empty directory returns the base name. -/
theorem unique_name_resolution_witness :
    getUniqueName [] [] "Café" = "Café" :=
  (unique_name_resolution [] [] "Café").1 (by decide)

theorem count_le_one_of_nodup {l : List Path} (h : l.Nodup) (p : Path) :
    l.count p ≤ 1 := by
  induction l with
  | nil => simp
  | cons a t ih =>
    rw [List.nodup_cons] at h
    by_cases hap : a = p
    · subst hap
      rw [List.count_cons_self]
      have hz : t.count a = 0 := List.count_eq_zero.mpr h.1
      omega
    · rw [List.count_cons_of_ne (fun hc => hap hc.symm)]
      exact ih h.2

/-- C5 — Uniqueness invariant: in the final tree of a successful run, no two
direct children of any directory share a name: for every directory path `d`
and child name `c`, at most one created entry has the path `d ++ [c]`. -/
theorem uniqueness_invariant {pre : Option FS} {rootFail : Option String}
    {cfg : Config} {draws : Nat → Nat} {fail : Nat → Option String}
    {fuel : Nat} {s : GenState}
    (hrun : runProgram pre rootFail cfg draws fail fuel = .ok (some s)) :
    ∀ (d : Path) (c : String), (s.fs.map Prod.fst).count (d ++ [c]) ≤ 1 := by
  obtain ⟨-, hinv, -, -⟩ := runProgram_ok hrun
  intro d c
  exact count_le_one_of_nodup hinv.nodup (d ++ [c])

/-- C5 witness at a concrete completed run. -/
theorem uniqueness_invariant_witness :
    (sW.fs.map Prod.fst).count ([] ++ ["a"]) ≤ 1 :=
  @uniqueness_invariant none none cfgW d0 f0 10 sW (by with_unfolding_all rfl)
    [] "a"

/-- C6 — Error propagation policy: a root-reset failure propagates uncaught
and aborts the run (first conjunct); a per-item creation failure is caught:
the step still returns normally, prints exactly
`"Failed to create folder: {error}"` (resp. `"... file: ..."`), leaves the
tree, the registry and the success counter untouched, and the loop proceeds
to a fresh pair of random draws (the stream position advances past this
iteration's two draws).  The last two conjuncts show a creation failure is
never escalated: whenever the two `random.choice` calls themselves cannot
raise, the iteration returns normally whatever the `fail` oracle does. -/
theorem error_propagation (cfg : Config) (draws : Nat → Nat)
    (fail : Nat → Option String) (s : GenState) (msg : String) :
    (∀ pre fuel,
      runProgram pre (some msg) cfg draws fail fuel = .error (.osError msg)) ∧
    (fail s.iter = some msg →
      ∀ s', folderStep cfg draws fail s = .ok s' →
        s'.errLog = s.errLog ++ ["Failed to create folder: " ++ msg] ∧
        s'.created_folders = s.created_folders ∧ s'.fs = s.fs ∧
        s'.folder_list = s.folder_list ∧ s'.rng = s.rng + 2) ∧
    (fail s.iter = some msg →
      ∀ s', fileStep cfg draws fail s = .ok s' →
        s'.errLog = s.errLog ++ ["Failed to create file: " ++ msg] ∧
        s'.created_files = s.created_files ∧ s'.fs = s.fs ∧
        s'.rng = s.rng + 2) ∧
    (valid_folders cfg s ≠ [] → cfg.names_list ≠ [] →
      ∃ s', folderStep cfg draws fail s = .ok s') ∧
    (s.folder_list ≠ [] → cfg.names_list ≠ [] →
      ∃ s', fileStep cfg draws fail s = .ok s') := by
  refine ⟨fun pre fuel => rfl, ?_, ?_, ?_, ?_⟩
  · intro hf s' hstep
    obtain ⟨pd, base, _, _, _, _, hcase⟩ := folderStep_char hstep
    rcases hcase with ⟨msg', hf', hs'⟩ | ⟨hf', _⟩
    · rw [hf] at hf'
      simp only [Option.some.injEq] at hf'
      rw [hs', hf']
      exact ⟨rfl, rfl, rfl, rfl, rfl⟩
    · rw [hf] at hf'
      exact absurd hf' (by simp)
  · intro hf s' hstep
    obtain ⟨pd, base, _, _, _, hcase⟩ := fileStep_char hstep
    rcases hcase with ⟨msg', hf', hs'⟩ | ⟨hf', _⟩
    · rw [hf] at hf'
      simp only [Option.some.injEq] at hf'
      rw [hs', hf']
      exact ⟨rfl, rfl, rfl, rfl⟩
    · rw [hf] at hf'
      exact absurd hf' (by simp)
  · intro hvf hpool
    obtain ⟨pd, _, hc1⟩ := choice_ne_error hvf (draws s.rng)
    obtain ⟨base, _, hc2⟩ := choice_ne_error hpool (draws (s.rng + 1))
    rw [folderStep, hc1, hc2]
    cases hfa : fail s.iter with
    | some m => exact ⟨_, rfl⟩
    | none => exact ⟨_, rfl⟩
  · intro hfl hpool
    obtain ⟨pd, _, hc1⟩ := choice_ne_error hfl (draws s.rng)
    obtain ⟨base, _, hc2⟩ := choice_ne_error hpool (draws (s.rng + 1))
    rw [fileStep, hc1, hc2]
    cases hfa : fail s.iter with
    | some m => exact ⟨_, rfl⟩
    | none => exact ⟨_, rfl⟩

/-- C6 witness: a concrete root-reset failure aborts the run with the
uncaught error. -/
theorem error_propagation_witness :
    runProgram none (some "Permission denied") cfgW d0 f0 3 =
      .error (.osError "Permission denied") :=
  (error_propagation cfgW d0 f0 initState "Permission denied").1 none 3

/-- C7 — Empty-pool guard: with an empty name pool and at least one item to
create, the run raises the `IndexError` of `random.choice` on its very first
iteration — for every fuel bound of at least one iteration the result is
that error, so generation aborts at once instead of looping
indefinitely. -/
theorem empty_pool_fails_fast (cfg : Config) (draws : Nat → Nat)
    (fail : Nat → Option String) (pre : Option FS) (fuel : Nat)
    (hpool : cfg.names_list = []) (hitems : 1 ≤ cfg.total_items)
    (hfuel : 1 ≤ fuel) :
    runProgram pre none cfg draws fail fuel = .error .emptyChoice := by
  rw [runProgram_none_eq pre]
  obtain ⟨f, rfl⟩ : ∃ f, fuel = f + 1 := ⟨fuel - 1, by omega⟩
  by_cases hnf : 1 ≤ num_folders cfg
  · have hloop : foldersLoop cfg draws fail (f + 1) initState = .error .emptyChoice := by
      rw [foldersLoop,
        if_pos (show initState.created_folders < num_folders cfg from hnf),
        folderStep_empty_pool initState hpool]
    rw [hloop]
  · have h0 : num_folders cfg = 0 := by omega
    have hfl : foldersLoop cfg draws fail (f + 1) initState = .ok (some initState) := by
      rw [foldersLoop,
        if_neg (show ¬ initState.created_folders < num_folders cfg by
          rw [h0]; exact Nat.not_lt_zero _)]
    rw [hfl]
    have hnfi : 1 ≤ num_files cfg := by
      rw [num_files, h0]
      omega
    show filesLoop cfg draws fail (f + 1) initState = .error .emptyChoice
    rw [filesLoop,
      if_pos (show initState.created_files < num_files cfg from hnfi),
      fileStep_empty_pool initState hpool]

/-- C7 witness at a concrete empty-pool configuration. -/
theorem empty_pool_fails_fast_witness :
    runProgram none none (⟨1, 4, 2/5, []⟩ : Config) d0 f0 7 = .error .emptyChoice :=
  empty_pool_fails_fast _ d0 f0 none 7 rfl (by decide) (by decide)

/-- C8 counterexample: at `MAX_DEPTH = 1` with one folder to create, the
folder-generation loop does NOT spin — already with fuel for a single
iteration the run terminates, with the uncaught `IndexError` raised by
`random.choice` on the (permanently empty) eligible-parent list; the result
is never the still-running marker `.ok none`. -/
theorem stall_claim_counterexample :
    runProgram none none cfgStall d0 f0 5 = .error .emptyChoice ∧
    ¬ runProgram none none cfgStall d0 f0 5 = .ok none := by
  have h : runProgram none none cfgStall d0 f0 5 = .error .emptyChoice := by
    with_unfolding_all rfl
  exact ⟨h, by rw [h]; simp⟩

/-- C8 (amended) — Boundary condition at `max_depth < 2`: the
eligible-parent filter is permanently empty (it is empty for every possible
state, the root at depth 0 included), and if `num_folders > 0` the first
iteration of the folder-generation loop raises an uncaught `IndexError`
(`random.choice` on the empty list), aborting the run without creating any
folder — the loop aborts rather than spinning. -/
theorem max_depth_lt_two_aborts (cfg : Config) (draws : Nat → Nat)
    (fail : Nat → Option String) (pre : Option FS) (fuel : Nat)
    (hmd : cfg.max_depth < 2) (hnf : 1 ≤ num_folders cfg) (hfuel : 1 ≤ fuel) :
    (∀ s : GenState, valid_folders cfg s = []) ∧
    runProgram pre none cfg draws fail fuel = .error .emptyChoice := by
  have hvf : ∀ s : GenState, valid_folders cfg s = [] := by
    intro s
    rw [valid_folders, List.filter_eq_nil_iff]
    intro pd hpd
    simp only [decide_eq_true_eq]
    omega
  refine ⟨hvf, ?_⟩
  rw [runProgram_none_eq pre]
  obtain ⟨f, rfl⟩ : ∃ f, fuel = f + 1 := ⟨fuel - 1, by omega⟩
  have hloop : foldersLoop cfg draws fail (f + 1) initState = .error .emptyChoice := by
    rw [foldersLoop,
      if_pos (show initState.created_folders < num_folders cfg from hnf)]
    have hstep : folderStep cfg draws fail initState = .error .emptyChoice := by
      rw [folderStep, hvf initState]
      rfl
    rw [hstep]
  rw [hloop]

/-- C8 (amended) witness at the concrete stalling configuration. -/
theorem max_depth_lt_two_aborts_witness :
    valid_folders cfgStall initState = [] ∧
    runProgram none none cfgStall d0 f0 5 = .error .emptyChoice := by
  have h := max_depth_lt_two_aborts cfgStall d0 f0 none 5 (by decide)
    (by
      have h1 : num_folders cfgStall = 1 := by with_unfolding_all rfl
      omega)
    (by decide)
  exact ⟨h.1 initState, h.2⟩

/-- C9 — Scenario (total_items=10, folder_ratio=0.4, max_depth=2, two-name
pool): every successful run — for any seed, hence for seed 42 — creates
exactly 4 folders and 6 files under the root; every created folder is a
direct child of the root (its relative path has length 1); every created
file sits in the root or in one of those folders; and depth-1 folders are
never eligible parents (every eligible parent has depth 0). -/
theorem scenario_counts_and_shape {pre : Option FS} {rootFail : Option String}
    {draws : Nat → Nat} {fail : Nat → Option String} {fuel : Nat}
    {s : GenState} (a b : String)
    (hrun : runProgram pre rootFail (cfg9 a b) draws fail fuel = .ok (some s)) :
    dirCount s.fs = 4 ∧ fileCount s.fs = 6 ∧
    (∀ e ∈ s.fs, (e : Path × EKind).2 = EKind.dir → e.1.length = 1) ∧
    (∀ e ∈ s.fs, (e : Path × EKind).2 ≠ EKind.dir →
      e.1.dropLast = [] ∨ (e.1.dropLast, EKind.dir) ∈ s.fs) ∧
    (∀ t : GenState, ∀ pd ∈ valid_folders (cfg9 a b) t,
      (pd : Path × Nat).2 = 0) := by
  obtain ⟨-, hinv, hf, hfi⟩ := runProgram_ok hrun
  have h4 : num_folders (cfg9 a b) = 4 := by
    rw [num_folders]
    norm_num [cfg9]
    rfl
  have h6 : num_files (cfg9 a b) = 6 := by
    rw [num_files, h4]
    rfl
  have hd2 : (cfg9 a b).max_depth = 2 := rfl
  refine ⟨by rw [hinv.dir_count, hf, h4], by rw [hinv.file_count, hfi, h6],
    ?_, ?_, ?_⟩
  · intro e he hdir
    have hmemD : e.1 ∈
        (s.fs.filter (fun x => decide (x.2 = EKind.dir))).map Prod.fst :=
      List.mem_map.mpr ⟨e, List.mem_filter.mpr ⟨he, decide_eq_true hdir⟩, rfl⟩
    have hreg : e.1 ∈ s.folder_list.map Prod.fst := by
      rw [hinv.sync]
      exact List.mem_cons_of_mem _ hmemD
    obtain ⟨pd, hpd, hpd1⟩ := List.mem_map.mp hreg
    have hlen : pd.1.length = pd.2 := hinv.len_depth pd hpd
    have hdep : pd.2 < (cfg9 a b).max_depth :=
      hinv.depths (by rw [hd2]; omega) pd hpd
    rw [hd2] at hdep
    have hne : e.1 ≠ [] := (hinv.parent_reg e he).1
    rw [hpd1] at hlen
    have hlen0 : e.1.length ≠ 0 := by
      intro hc
      exact hne (List.eq_nil_of_length_eq_zero hc)
    omega
  · intro e he hfile
    obtain ⟨hne, hdrop⟩ := hinv.parent_reg e he
    rw [hinv.sync] at hdrop
    rcases List.mem_cons.mp hdrop with hnil | hmem
    · exact Or.inl hnil
    · right
      obtain ⟨e', he', he'1⟩ := List.mem_map.mp hmem
      rw [List.mem_filter] at he'
      have hdir' : e'.2 = EKind.dir := of_decide_eq_true he'.2
      rw [← he'1, ← hdir', Prod.mk.eta]
      exact he'.1
  · intro t pd hpd
    rw [valid_folders, List.mem_filter] at hpd
    have hlt := of_decide_eq_true hpd.2
    rw [hd2] at hlt
    omega

/-- C9 witness at a concrete completed run of the scenario. -/
theorem scenario_witness :
    dirCount s9.fs = 4 ∧ fileCount s9.fs = 6 := by
  have h := @scenario_counts_and_shape none none d0 f0 20 s9 "a" "b"
    (by with_unfolding_all rfl)
  exact ⟨h.1, h.2.1⟩

/-- C10 — No overwrite: when an iteration's creation attempt succeeds, the
created entry's path did not exist immediately before the creation (the
unique-name resolver only returns names whose joined path fails the
existence probe), the tree merely grows by that one entry — nothing is
truncated or replaced — and a created file is a new file with empty
content. -/
theorem no_overwrite (cfg : Config) (draws : Nat → Nat)
    (fail : Nat → Option String) (s : GenState) :
    (∀ s', fail s.iter = none → folderStep cfg draws fail s = .ok s' →
      ∃ p, s'.fs = s.fs ++ [(p, EKind.dir)] ∧ pathExists s.fs p = false) ∧
    (∀ s', fail s.iter = none → fileStep cfg draws fail s = .ok s' →
      ∃ p, s'.fs = s.fs ++ [(p, EKind.file "")] ∧
        pathExists s.fs p = false) := by
  constructor
  · intro s' hf hstep
    obtain ⟨pd, base, _, _, _, hfresh, hcase⟩ := folderStep_char hstep
    rcases hcase with ⟨msg, hf', _⟩ | ⟨_, hs'⟩
    · rw [hf] at hf'
      exact absurd hf' (by simp)
    · exact ⟨pd.1 ++ [getUniqueName s.fs pd.1 base], by rw [hs'], hfresh⟩
  · intro s' hf hstep
    obtain ⟨pd, base, _, _, hfresh, hcase⟩ := fileStep_char hstep
    rcases hcase with ⟨msg, hf', _⟩ | ⟨_, hs'⟩
    · rw [hf] at hf'
      exact absurd hf' (by simp)
    · exact ⟨pd.1 ++ [getUniqueName s.fs pd.1 base], by rw [hs'], hfresh⟩

/-- C10 witness: the first concrete folder creation extends the empty tree
with a fresh path. -/
theorem no_overwrite_witness :
    ∃ p, sIter1.fs = initState.fs ++ [(p, EKind.dir)] ∧
      pathExists initState.fs p = false :=
  (no_overwrite cfgW d0 f0 initState).1 sIter1 rfl (by with_unfolding_all rfl)

end GenTestData
